import Mathlib

/-
Verification of the protocol engine of go-git-annex-external.

Strings are modelled as lists of characters (Msg). A wire send performed
through LineIO.Send is modelled structurally as a pair of the command token
and the argument list (Sent); the formatted wire line is obtained from such
a pair by fmtLine, the faithful translation of the internal fmtLine
function (fmt.Sprintln joins the operands with single spaces and appends a
newline, strings.TrimRight removes every trailing newline, and
strings.ReplaceAll escapes each remaining newline as a backslash followed
by the letter n).

Go panics are modelled with Except: a handler that panics produces
Except.error carrying the panic message and no wire output. In
RunWithStreams the deferred recover runs in the goroutine that executes
RunWithStreams itself, while every job handler runs in a goroutine spawned
with go runJob; a Go panic in one goroutine cannot be recovered in
another, so a handler panic aborts the process before any further line is
written. The sequential model therefore ends a run at the first handler
panic with no additional output.
-/

set_option maxRecDepth 10000

namespace AnnexExt

abbrev Msg := List Char

/-- One call to LineIO.Send: the command token together with the argument list. -/
abbrev Sent := Msg × List Msg

/-- Splits at the first occurrence of the separator: the part before it and
the part after it, or none when the separator does not occur. -/
def splitFirst (sep : Char) : Msg → Option (Msg × Msg)
  | [] => none
  | c :: cs =>
    if c = sep then some ([], cs)
    else (splitFirst sep cs).map (fun p => (c :: p.1, p.2))

/-- Go strings.SplitN with a single-character separator and nonnegative bound:
at most n pieces, the final piece keeps any remaining separators; a bound of
zero yields the empty list, exactly as in Go. -/
def goSplitN (sep : Char) : Nat → Msg → List Msg
  | 0, _ => []
  | 1, s => [s]
  | n + 2, s =>
    match splitFirst sep s with
    | none => [s]
    | some p => p.1 :: goSplitN sep (n + 1) p.2

/-- Go strings.Split, the unbounded variant: a string of length L has at most
L separators, so a bound of L + 1 always produces the full split. -/
def goSplitAll (sep : Char) (s : Msg) : List Msg :=
  goSplitN sep (s.length + 1) s

/-- Joining with single spaces, as fmt.Sprintln does between its operands. -/
def joinSp : List Msg → Msg
  | [] => []
  | [x] => x
  | x :: y :: t => x ++ ' ' :: joinSp (y :: t)

/-- strings.TrimRight with a cutset holding only the newline character. -/
def trimNl (s : Msg) : Msg :=
  (s.reverse.dropWhile (fun c => c == '\n')).reverse

/-- strings.ReplaceAll replacing each newline with a backslash and the letter n. -/
def escNl : Msg → Msg
  | [] => []
  | c :: t => if c = '\n' then '\\' :: 'n' :: escNl t else c :: escNl t

/-- fmtLine from the internal package: Sprintln the command and the arguments,
trim the trailing newline characters, escape the embedded newlines. -/
def fmtLine (cmd : Msg) (args : List Msg) : Msg :=
  escNl (trimNl (joinSp (cmd :: args) ++ ['\n']))

/-- The first space-delimited token of a line. -/
def headToken (s : Msg) : Msg :=
  s.takeWhile (fun c => c ≠ ' ')

/-- The decoding procLine performs for a total token bound n: the command
token is the part before the first space, and the remainder splits into at
most n - 1 pieces (the ArgCount of the handler). -/
def decodeLine (n : Nat) (line : Msg) : Msg × List Msg :=
  let parts := goSplitN ' ' 2 line
  (parts.headD [], goSplitN ' ' (n - 1) ((parts.get? 1).getD []))

/-- The argument indexing Response3 performs before calling the user handler;
none models the index-out-of-range panic of a missing position. -/
def invoke3 (args : List Msg) : Option (Msg × Msg × Msg) :=
  match args.get? 0, args.get? 1, args.get? 2 with
  | some a, some b, some c => some (a, b, c)
  | _, _, _ => none

/-- Decimal digit characters for the rendering done by the percent-d and
percent-v verbs of the fmt package. -/
def digitChar : Nat → Char
  | 0 => '0'
  | 1 => '1'
  | 2 => '2'
  | 3 => '3'
  | 4 => '4'
  | 5 => '5'
  | 6 => '6'
  | 7 => '7'
  | 8 => '8'
  | 9 => '9'
  | _ => '?'

/-- Decimal rendering of a natural number, with explicit fuel so that the
recursion is structural. -/
def natCharsAux : Nat → Nat → Msg
  | 0, _ => []
  | fuel + 1, n =>
    if n < 10 then [digitChar n]
    else natCharsAux fuel (n / 10) ++ [digitChar (n % 10)]

/-- Decimal rendering of a natural number (fuel n + 1 always suffices). -/
def natChars (n : Nat) : Msg := natCharsAux (n + 1) n

/-- Decimal rendering of an integer. -/
def intChars (i : Int) : Msg :=
  if i < 0 then '-' :: natChars (-i).toNat else natChars i.toNat

def errChars : Msg := "ERROR".toList

/-- jobLineIO.Send: for a job with nonzero number and a command other than
ERROR, the line is re-sent as command J with the job number and the original
command prepended to the arguments. -/
def jobSend (num : Nat) (cmd : Msg) (args : List Msg) : Msg :=
  if cmd ≠ errChars ∧ num ≠ 0 then
    fmtLine ("J".toList) (natChars num :: cmd :: args)
  else
    fmtLine cmd args

/-- The prefix J, the job number and a space, as built by jobLineIO.Recv. -/
def jobPfx (num : Nat) : Msg :=
  "J ".toList ++ natChars num ++ " ".toList

/-- jobLineIO.Recv: empty lines and job zero pass through; otherwise the
J-number prefix is stripped, and a line without that exact prefix is a
panic, modelled as none. -/
def jobRecv (num : Nat) (line : Msg) : Option Msg :=
  if line = [] ∨ num = 0 then some line
  else
    let rest := if (jobPfx num).isPrefixOf line then line.drop (jobPfx num).length else line
    if line = rest then none else some rest

/- Protocol command tokens, from the constants in the remote package. -/

def startupChars : Msg := "__internal_startup__".toList
def unsupportedChars : Msg := "__internal_unsupported__".toList
def version1Chars : Msg := "VERSION 1".toList
def cmdInitRemote : Msg := "INITREMOTE".toList
def cmdPrepare : Msg := "PREPARE".toList
def cmdTransfer : Msg := "TRANSFER".toList
def cmdCheckPresent : Msg := "CHECKPRESENT".toList
def cmdRemove : Msg := "REMOVE".toList
def cmdExtensions : Msg := "EXTENSIONS".toList
def cmdListConfigs : Msg := "LISTCONFIGS".toList
def cmdGetCost : Msg := "GETCOST".toList
def cmdGetAvailability : Msg := "GETAVAILABILITY".toList
def cmdClaimURL : Msg := "CLAIMURL".toList
def cmdCheckURL : Msg := "CHECKURL".toList
def cmdWhereIs : Msg := "WHEREIS".toList
def cmdGetInfo : Msg := "GETINFO".toList
def cmdExportSupported : Msg := "EXPORTSUPPORTED".toList
def cmdExport : Msg := "EXPORT".toList
def cmdCheckPresentExport : Msg := "CHECKPRESENTEXPORT".toList
def cmdTransferExport : Msg := "TRANSFEREXPORT".toList
def cmdRemoveExport : Msg := "REMOVEEXPORT".toList
def cmdRemoveExportDirectory : Msg := "REMOVEEXPORTDIRECTORY".toList
def cmdRenameExport : Msg := "RENAMEEXPORT".toList
def dirStore : Msg := "STORE".toList
def dirRetrieve : Msg := "RETRIEVE".toList

/-- annexIO.sendSuccess: the command with the SUCCESS suffix. -/
def sendSuccess (cmd : Msg) (args : List Msg) : Sent :=
  (cmd ++ "-SUCCESS".toList, args)

/-- annexIO.sendFailure: the command with the FAILURE suffix. -/
def sendFailure (cmd : Msg) (args : List Msg) : Sent :=
  (cmd ++ "-FAILURE".toList, args)

/-- annexIO.sendUnknown: the command with the UNKNOWN suffix. -/
def sendUnknown (cmd : Msg) (args : List Msg) : Sent :=
  (cmd ++ "-UNKNOWN".toList, args)

/-- annexIO.unsupported. -/
def unsupportedSend : Sent := ("UNSUPPORTED-REQUEST".toList, [])

/-- The startup send of the remote protocol. -/
def version1Send : Sent := (version1Chars, [])

/-- URLInfo from the remote package: one entry of a CheckURL result. -/
structure URLInfo where
  url : Msg
  size : Int
  filename : Msg
deriving DecidableEq

/-- The export capability (HasExport): the four export methods, with each
method modelled by the outcome it returns. -/
structure ExportImpl where
  storeExportR : Msg → Msg → Msg → Option Msg
  retrieveExportR : Msg → Msg → Msg → Option Msg
  presentExportR : Msg → Msg → Bool × Option Msg
  removeExportR : Msg → Msg → Option Msg

/-- A RemoteV1 implementation together with its optional capabilities:
a field holding none means the interface assertion for that capability
fails. Handler outcomes are given as values, so user code that performs
Annex callbacks of its own is outside this model. -/
structure RemoteUser where
  initR : Option Msg
  prepareR : Option Msg
  storeR : Msg → Msg → Option Msg
  retrieveR : Msg → Msg → Option Msg
  presentR : Msg → Bool × Option Msg
  removeR : Msg → Option Msg
  extensionsR : Option (List Msg → List Msg)
  listConfigsR : Option (List (Msg × Msg))
  getCostR : Option Int
  getAvailabilityR : Option Msg
  claimURLR : Option (Msg → Bool)
  checkURLR : Option (Msg → Except Msg (List URLInfo))
  whereIsR : Option (Msg → Msg)
  getInfoR : Option (List (Msg × Msg))
  exportCap : Option ExportImpl
  removeExportDirectoryR : Option (Msg → Option Msg)
  renameExportR : Option (Msg → Msg → Msg → Option Msg)

/- Handlers of the remote package, translated one to one. -/

def initRemote (r : Option Msg) : List Sent :=
  match r with
  | some e => [sendFailure cmdInitRemote [e]]
  | none => [sendSuccess cmdInitRemote []]

def prepare (r : Option Msg) : List Sent :=
  match r with
  | some e => [sendFailure cmdPrepare [e]]
  | none => [sendSuccess cmdPrepare []]

/-- transfer: the direction selects Retrieve or Store, any other direction
panics with the message built in the source. -/
def transfer (storeR retrieveR : Msg → Msg → Option Msg) (dir key file : Msg) :
    Except Msg (List Sent) :=
  if dir = dirRetrieve then
    match retrieveR key file with
    | some e => .ok [sendFailure cmdTransfer [dir, key, e]]
    | none => .ok [sendSuccess cmdTransfer [dir, key]]
  else if dir = dirStore then
    match storeR key file with
    | some e => .ok [sendFailure cmdTransfer [dir, key, e]]
    | none => .ok [sendSuccess cmdTransfer [dir, key]]
  else
    .error ("unknown transfer direction ".toList ++ dir)

/-- present: the switch tests the boolean first, so a true presence wins
even when the error is not nil. -/
def present (res : Bool × Option Msg) (key : Msg) : List Sent :=
  match res with
  | (true, _) => [sendSuccess cmdCheckPresent [key]]
  | (false, some e) => [sendUnknown cmdCheckPresent [key, e]]
  | (false, none) => [sendFailure cmdCheckPresent [key]]

def remove (r : Option Msg) (key : Msg) : List Sent :=
  match r with
  | some e => [sendFailure cmdRemove [key, e]]
  | none => [sendSuccess cmdRemove [key]]

def extensions (cap : Option (List Msg → List Msg)) (e : List Msg) : List Sent :=
  match cap with
  | none => [unsupportedSend]
  | some f => [(cmdExtensions, [joinSp (f e)])]

def listConfigs (cap : Option (List (Msg × Msg))) : List Sent :=
  match cap with
  | none => [unsupportedSend]
  | some cs => cs.map (fun c => (("CONFIG".toList : Msg), [c.1, c.2])) ++ [("CONFIGEND".toList, [])]

def getCost (cap : Option Int) : List Sent :=
  match cap with
  | none => [unsupportedSend]
  | some c => [("COST".toList, [intChars c])]

def getAvailability (cap : Option Msg) : List Sent :=
  match cap with
  | none => [unsupportedSend]
  | some v => [("AVAILABILITY".toList, [v])]

def claimURL (cap : Option (Msg → Bool)) (url : Msg) : List Sent :=
  match cap with
  | none => [unsupportedSend]
  | some f => if f url then [sendSuccess cmdClaimURL []] else [sendFailure cmdClaimURL []]

/-- szStr inside checkURL: a negative size renders as the literal UNKNOWN. -/
def szStr (sz : Int) : Msg :=
  if sz < 0 then "UNKNOWN".toList else natChars sz.toNat

/-- The validation loop of checkURL: for each entry in order, the URL is
checked before the filename, and the first offence selects the message. -/
def badURLScan : List URLInfo → Option Msg
  | [] => none
  | u :: rest =>
    if u.url.any (fun c => c == ' ' || c == '\n') then
      some ("remote implementation returned a URL containing a space".toList)
    else if u.filename.any (fun c => c == ' ' || c == '\n') then
      some ("remote implementation returned a filename containing a space".toList)
    else badURLScan rest

/-- The argument accumulation of the CHECKURL-MULTI branch. -/
def urlTriples : List URLInfo → List Msg
  | [] => []
  | v :: t => v.url :: szStr v.size :: v.filename :: urlTriples t

/-- checkURL from the remote package. Note that the single-entry branch of
the source tests the Filename field against the empty string, although the
doc comment above HasCheckURL in the same file says the URL field. -/
def checkURL (cap : Option (Except Msg (List URLInfo))) : List Sent :=
  match cap with
  | none => [unsupportedSend]
  | some (.error e) => [sendFailure cmdCheckURL [e]]
  | some (.ok urls) =>
    match badURLScan urls with
    | some m => [sendFailure cmdCheckURL [m]]
    | none =>
      match urls with
      | [u] =>
        if u.filename = [] then
          [(cmdCheckURL ++ "-CONTENTS".toList, [szStr u.size, u.filename])]
        else
          [(cmdCheckURL ++ "-MULTI".toList, urlTriples urls)]
      | _ => [(cmdCheckURL ++ "-MULTI".toList, urlTriples urls)]

def whereIs (cap : Option (Msg → Msg)) (key : Msg) : List Sent :=
  match cap with
  | none => [unsupportedSend]
  | some f =>
    if f key = [] then [sendFailure cmdWhereIs []]
    else [sendSuccess cmdWhereIs [f key]]

def getInfo (cap : Option (List (Msg × Msg))) : List Sent :=
  match cap with
  | none => [unsupportedSend]
  | some fs =>
    (fs.map (fun f => [(("INFOFIELD".toList : Msg), [f.1]), (("INFOVALUE".toList : Msg), [f.2])])).flatten
      ++ [("INFOEND".toList, [])]

/-- exportSupported as in remote/optional.go: a missing export capability
answers with the FAILURE reply rather than with UNSUPPORTED-REQUEST. -/
def exportSupported (cap : Option ExportImpl) : List Sent :=
  match cap with
  | none => [sendFailure cmdExportSupported []]
  | some _ => [sendSuccess cmdExportSupported []]

/-- presentExport: the replies reuse the CHECKPRESENT token, and the switch
has the same precedence as present. -/
def presentExport (cap : Option ExportImpl) (name key : Msg) : List Sent :=
  match cap with
  | none => [unsupportedSend]
  | some h =>
    match h.presentExportR name key with
    | (true, _) => [sendSuccess cmdCheckPresent [key]]
    | (false, some e) => [sendUnknown cmdCheckPresent [key, e]]
    | (false, none) => [sendFailure cmdCheckPresent [key]]

/-- transferExport: the replies reuse the TRANSFER token; an unknown
direction panics as in transfer. -/
def transferExport (cap : Option ExportImpl) (name dir key file : Msg) :
    Except Msg (List Sent) :=
  match cap with
  | none => .ok [unsupportedSend]
  | some h =>
    if dir = dirRetrieve then
      match h.retrieveExportR name key file with
      | some e => .ok [sendFailure cmdTransfer [dir, key, e]]
      | none => .ok [sendSuccess cmdTransfer [dir, key]]
    else if dir = dirStore then
      match h.storeExportR name key file with
      | some e => .ok [sendFailure cmdTransfer [dir, key, e]]
      | none => .ok [sendSuccess cmdTransfer [dir, key]]
    else
      .error ("unknown transfer direction ".toList ++ dir)

/-- removeExport: the replies reuse the REMOVE token. -/
def removeExport (cap : Option ExportImpl) (name key : Msg) : List Sent :=
  match cap with
  | none => [unsupportedSend]
  | some h =>
    match h.removeExportR name key with
    | some e => [sendFailure cmdRemove [key, e]]
    | none => [sendSuccess cmdRemove [key]]

def removeExportDirectory (cap : Option (Msg → Option Msg)) (directory : Msg) : List Sent :=
  match cap with
  | none => [unsupportedSend]
  | some f =>
    match f directory with
    | some _ => [sendFailure cmdRemoveExportDirectory []]
    | none => [sendSuccess cmdRemoveExportDirectory []]

def renameExport (cap : Option (Msg → Msg → Msg → Option Msg)) (name key newName : Msg) :
    List Sent :=
  match cap with
  | none => [unsupportedSend]
  | some f =>
    match f name key newName with
    | some _ => [sendFailure cmdRenameExport [key]]
    | none => [sendSuccess cmdRenameExport [key]]

/-- A handler entry of the command map: the dispatcher state is the sticky
export name; a panic is Except.error. -/
abbrev HandlerM := List Msg → Msg → Except Msg (List Sent × Msg)

def idxPanic : Msg := "index out of range".toList

/-- The command map built in remote.Run, as a lookup chain: each entry pairs
the ArgCount with the handler, exactly as the CommandSpec values do. -/
def findSpec (u : RemoteUser) (cmd : Msg) : Option (Nat × HandlerM) :=
  if cmd = startupChars then some (0, fun _ st => .ok ([version1Send], st)) else
  if cmd = unsupportedChars then some (0, fun _ st => .ok ([unsupportedSend], st)) else
  if cmd = cmdInitRemote then some (0, fun _ st => .ok (initRemote u.initR, st)) else
  if cmd = cmdPrepare then some (0, fun _ st => .ok (prepare u.prepareR, st)) else
  if cmd = cmdTransfer then some (3, fun args st =>
    match args.get? 0, args.get? 1, args.get? 2 with
    | some d, some k, some f => (transfer u.storeR u.retrieveR d k f).map (fun o => (o, st))
    | _, _, _ => .error idxPanic) else
  if cmd = cmdCheckPresent then some (1, fun args st =>
    match args.get? 0 with
    | some k => .ok (present (u.presentR k) k, st)
    | none => .error idxPanic) else
  if cmd = cmdRemove then some (1, fun args st =>
    match args.get? 0 with
    | some k => .ok (remove (u.removeR k) k, st)
    | none => .error idxPanic) else
  if cmd = cmdExtensions then some (1, fun args st =>
    match args.get? 0 with
    | some s => .ok (extensions u.extensionsR (goSplitAll ' ' s), st)
    | none => .error idxPanic) else
  if cmd = cmdListConfigs then some (0, fun _ st => .ok (listConfigs u.listConfigsR, st)) else
  if cmd = cmdGetCost then some (0, fun _ st => .ok (getCost u.getCostR, st)) else
  if cmd = cmdGetAvailability then some (0, fun _ st =>
    .ok (getAvailability u.getAvailabilityR, st)) else
  if cmd = cmdClaimURL then some (1, fun args st =>
    match args.get? 0 with
    | some url => .ok (claimURL u.claimURLR url, st)
    | none => .error idxPanic) else
  if cmd = cmdCheckURL then some (1, fun args st =>
    match args.get? 0 with
    | some url => .ok (checkURL ((u.checkURLR).map (fun f => f url)), st)
    | none => .error idxPanic) else
  if cmd = cmdWhereIs then some (1, fun args st =>
    match args.get? 0 with
    | some k => .ok (whereIs u.whereIsR k, st)
    | none => .error idxPanic) else
  if cmd = cmdGetInfo then some (0, fun _ st => .ok (getInfo u.getInfoR, st)) else
  if cmd = cmdExportSupported then some (0, fun _ st =>
    .ok (exportSupported u.exportCap, st)) else
  if cmd = cmdExport then some (1, fun args _st =>
    match args.get? 0 with
    | some n => .ok ([], n)
    | none => .error idxPanic) else
  if cmd = cmdCheckPresentExport then some (1, fun args st =>
    match args.get? 0 with
    | some k => .ok (presentExport u.exportCap st k, st)
    | none => .error idxPanic) else
  if cmd = cmdTransferExport then some (3, fun args st =>
    match args.get? 0, args.get? 1, args.get? 2 with
    | some d, some k, some f => (transferExport u.exportCap st d k f).map (fun o => (o, st))
    | _, _, _ => .error idxPanic) else
  if cmd = cmdRemoveExport then some (1, fun args st =>
    match args.get? 0 with
    | some k => .ok (removeExport u.exportCap st k, st)
    | none => .error idxPanic) else
  if cmd = cmdRemoveExportDirectory then some (1, fun args st =>
    match args.get? 0 with
    | some d => .ok (removeExportDirectory u.removeExportDirectoryR d, st)
    | none => .error idxPanic) else
  if cmd = cmdRenameExport then some (3, fun args st =>
    match args.get? 0, args.get? 1, args.get? 2 with
    | some n, some k, some nn => .ok (renameExport u.renameExportR n k nn, st)
    | _, _, _ => .error idxPanic) else
  none

/-- procLine from the internal package: split off the command token, look it
up, split the remainder by the ArgCount and run the handler; an unknown
command other than the two internal sentinels is re-dispatched once as the
internal unsupported command, whose handler is inlined here (that command is
always present in the map and sends UNSUPPORTED-REQUEST). -/
def procLine (u : RemoteUser) (line : Msg) (st : Msg) : Except Msg (List Sent × Msg) :=
  let parts := goSplitN ' ' 2 line
  let cmd := parts.headD []
  let argsStr := (parts.get? 1).getD []
  match findSpec u cmd with
  | some s => s.2 (goSplitN ' ' s.1 argsStr) st
  | none =>
    if cmd = startupChars ∨ cmd = unsupportedChars then .ok ([], st)
    else .ok ([unsupportedSend], st)

/-- The per-job loop of runJob, sequentially: lines are processed in order,
and a handler panic aborts the job with no further output (the deferred
recover of RunWithStreams lives in another goroutine and never observes
it). -/
def runLines (u : RemoteUser) : List Msg → Msg → List Sent × Option Msg
  | [], _ => ([], none)
  | l :: ls, st =>
    match procLine u l st with
    | .error p => ([], some p)
    | .ok (out, st2) =>
      let r := runLines u ls st2
      (out ++ r.1, r.2)

/-- The job-zero conversation of RunWithStreams: the loop starts from the
synthetic startup command before the first input line is consumed, and it
stops at the first empty line (EOF). The initial sticky export name is
empty. -/
def runRemote (u : RemoteUser) (inputs : List Msg) : List Sent × Option Msg :=
  runLines u (startupChars :: inputs.takeWhile (fun l => !l.isEmpty)) []

/-- The number of VERSION 1 sends in an output trace. -/
def countVer : List Sent → Nat
  | [] => 0
  | s :: t => (if s = version1Send then 1 else 0) + countVer t

/-- A remote implementation with no optional capability and plain outcomes,
for concrete runs. -/
def demoUser : RemoteUser where
  initR := none
  prepareR := none
  storeR := fun _ _ => none
  retrieveR := fun _ _ => none
  presentR := fun _ => (false, none)
  removeR := fun _ => none
  extensionsR := none
  listConfigsR := none
  getCostR := none
  getAvailabilityR := none
  claimURLR := none
  checkURLR := none
  whereIsR := none
  getInfoR := none
  exportCap := none
  removeExportDirectoryR := none
  renameExportR := none

/-- A remote implementation with the export capability, whose presence check
answers true with a nil error. -/
def expUser : RemoteUser :=
  { demoUser with
    exportCap := some
      { storeExportR := fun _ _ _ => none
        retrieveExportR := fun _ _ _ => none
        presentExportR := fun _ _ => (true, none)
        removeExportR := fun _ _ => none } }

/- The backend package. -/

def cmdGenKey : Msg := "GENKEY".toList
def cmdVerifyKeyContent : Msg := "VERIFYKEYCONTENT".toList

/-- The literal executable name prefix of getBackendName. -/
def backendNamePfx : Msg := "git-annex-backend-X".toList

/-- strings.TrimPrefix: drop the prefix when present, otherwise return the
string unchanged. -/
def trimPfx (p s : Msg) : Msg :=
  if p.isPrefixOf s then s.drop p.length else s

/-- getBackendName: the executable basename with the prefix removed, or the
empty string when trimming changed nothing. -/
def getBackendName (prog : Msg) : Msg :=
  let rest := trimPfx backendNamePfx prog
  if rest = prog then [] else rest

/-- genKey of the backend package, with the user outcome and the stat
outcome as inputs; the stat runs only when the size is requested. -/
def genKeyResp (bname : Msg) (gk : Except Msg (Msg × Bool)) (statR : Except Msg Nat) :
    List Sent :=
  match gk with
  | .error e => [sendFailure cmdGenKey [e]]
  | .ok (name, useSize) =>
    if useSize then
      match statR with
      | .error e => [sendFailure cmdGenKey [e]]
      | .ok sz =>
        [sendSuccess cmdGenKey
          ["X".toList ++ bname ++ "-s".toList ++ natChars sz ++ "--".toList ++ name]]
    else
      [sendSuccess cmdGenKey ["X".toList ++ bname ++ "--".toList ++ name]]

/-- The part after the first occurrence of two dashes, as element one of
strings.SplitAfterN with bound two; none when the key has no such pair, in
which case indexing element one panics. -/
def splitAfterDashDash : Msg → Option Msg
  | [] => none
  | '-' :: '-' :: rest => some rest
  | _ :: t => splitAfterDashDash t

/-- verifyKeyContent of the backend package: the key is split on the first
two dashes with the element-one index taken unconditionally, and the
capability assertion discards its ok flag, so a missing capability is a nil
interface whose method call panics. -/
def verifyKeyContent (cap : Option (Msg → Msg → Bool)) (key file : Msg) :
    Except Msg (List Sent) :=
  match splitAfterDashDash key with
  | none => .error idxPanic
  | some name =>
    match cap with
    | none => .error ("nil interface method call".toList)
    | some v =>
      if v name file then .ok [sendSuccess cmdVerifyKeyContent []]
      else .ok [sendFailure cmdVerifyKeyContent []]

/-- Whether a handler outcome is a panic. -/
def isPanic (r : Except Msg (List Sent)) : Bool :=
  match r with
  | .error _ => true
  | .ok _ => false

/- Helper lemmas about the string primitives. -/

theorem splitFirst_eq_none {sep : Char} {s : Msg} (h : sep ∉ s) :
    splitFirst sep s = none := by
  induction s with
  | nil => rfl
  | cons c t ih =>
    have hc : ¬c = sep := fun hc => h (hc ▸ List.mem_cons_self c t)
    simp only [splitFirst, if_neg hc, ih (fun hm => h (List.mem_cons_of_mem c hm)),
      Option.map_none']

theorem splitFirst_append {sep : Char} {a : Msg} (t : Msg) (h : sep ∉ a) :
    splitFirst sep (a ++ sep :: t) = some (a, t) := by
  induction a with
  | nil => simp [splitFirst]
  | cons c u ih =>
    have hc : ¬c = sep := fun hc => h (hc ▸ List.mem_cons_self c u)
    have hu := ih (fun hm => h (List.mem_cons_of_mem c hm))
    simp only [List.cons_append, splitFirst, if_neg hc]
    rw [show (u.append (sep :: t)) = u ++ sep :: t from rfl, hu]
    rfl

theorem splitFirst_some {sep : Char} : ∀ {s a t : Msg},
    splitFirst sep s = some (a, t) → s = a ++ sep :: t ∧ sep ∉ a := by
  intro s
  induction s with
  | nil => intro a t h; simp [splitFirst] at h
  | cons c u ih =>
    intro a t h
    by_cases hc : c = sep
    · simp only [splitFirst, if_pos hc, Option.some.injEq] at h
      obtain ⟨ha, ht⟩ := Prod.mk.injEq .. ▸ h
      subst ha; subst ht
      exact ⟨by rw [hc]; rfl, List.not_mem_nil sep⟩
    · simp only [splitFirst, if_neg hc] at h
      cases hu : splitFirst sep u with
      | none => rw [hu] at h; simp at h
      | some p =>
        rw [hu] at h
        simp only [Option.map_some', Option.some.injEq] at h
        obtain ⟨hp, hsnd⟩ := Prod.mk.injEq .. ▸ h
        obtain ⟨hu2, hnm⟩ := ih (a := p.1) (t := p.2) (by rw [hu])
        constructor
        · rw [← hp, ← hsnd, List.cons_append, ← hu2]
        · rw [← hp]
          intro hm
          rcases List.mem_cons.mp hm with h1 | h1
          · exact hc h1.symm
          · exact hnm h1

theorem splitFirst_none {sep : Char} : ∀ {s : Msg}, splitFirst sep s = none → sep ∉ s := by
  intro s
  induction s with
  | nil => intro _ hm; exact absurd hm (List.not_mem_nil sep)
  | cons c t ih =>
    intro h hm
    by_cases hc : c = sep
    · simp [splitFirst, hc] at h
    · simp only [splitFirst, if_neg hc] at h
      cases ht : splitFirst sep t with
      | none =>
        rcases List.mem_cons.mp hm with h1 | h1
        · exact hc h1.symm
        · exact ih ht h1
      | some p => rw [ht] at h; simp at h

theorem goSplitN_one (s : Msg) : goSplitN ' ' 1 s = [s] := rfl

theorem goSplitN_no_sp {s : Msg} (h : ' ' ∉ s) (n : Nat) :
    goSplitN ' ' (n + 2) s = [s] := by
  simp only [goSplitN, splitFirst_eq_none h]

theorem goSplitN_joinSp : ∀ (args : List Msg), args ≠ [] →
    (∀ a ∈ args.dropLast, ' ' ∉ a) →
    goSplitN ' ' args.length (joinSp args) = args := by
  intro args
  induction args with
  | nil => intro h; exact absurd rfl h
  | cons a t ih =>
    intro _ hd
    cases t with
    | nil => rfl
    | cons b r =>
      have ha : ' ' ∉ a := hd a (by rw [List.dropLast_cons₂]; exact List.mem_cons_self a _)
      have hd' : ∀ x ∈ (b :: r).dropLast, ' ' ∉ x := fun x hx =>
        hd x (by rw [List.dropLast_cons₂]; exact List.mem_cons_of_mem a hx)
      have hj : joinSp (a :: b :: r) = a ++ ' ' :: joinSp (b :: r) := rfl
      have hlen : (a :: b :: r).length = r.length + 2 := by simp
      rw [hj, hlen]
      simp only [goSplitN, splitFirst_append _ ha]
      have hl2 : r.length + 1 = (b :: r).length := by simp
      rw [hl2, ih (by simp) hd']

theorem mem_joinSp {c : Char} : ∀ {l : List Msg}, c ∈ joinSp l →
    c = ' ' ∨ ∃ x ∈ l, c ∈ x := by
  intro l
  induction l with
  | nil => intro h; simp [joinSp] at h
  | cons a t ih =>
    intro h
    cases t with
    | nil => exact Or.inr ⟨a, by simp, h⟩
    | cons b r =>
      have : joinSp (a :: b :: r) = a ++ ' ' :: joinSp (b :: r) := rfl
      rw [this] at h
      rcases List.mem_append.mp h with h1 | h1
      · exact Or.inr ⟨a, by simp, h1⟩
      · rcases List.mem_cons.mp h1 with h2 | h2
        · exact Or.inl h2
        · rcases ih h2 with h3 | ⟨x, hx, hcx⟩
          · exact Or.inl h3
          · exact Or.inr ⟨x, List.mem_cons_of_mem a hx, hcx⟩

theorem dropWhile_no_nl {s : Msg} (h : '\n' ∉ s) :
    s.dropWhile (fun c => c == '\n') = s := by
  cases s with
  | nil => rfl
  | cons c t =>
    have : (c == '\n') = false := by
      apply beq_eq_false_iff_ne.mpr
      intro hc
      exact h (hc ▸ List.mem_cons_self c t)
    simp [List.dropWhile, this]

theorem dropWhile_append_no_nl {a : Msg} (h : '\n' ∉ a) : ∀ (w : Msg),
    (w ++ a.reverse).dropWhile (fun c => c == '\n') =
      w.dropWhile (fun c => c == '\n') ++ a.reverse := by
  intro w
  induction w with
  | nil =>
    simp only [List.nil_append, List.dropWhile_nil]
    exact dropWhile_no_nl (fun hm => h (List.mem_reverse.mp hm))
  | cons c t ih =>
    by_cases hc : (c == '\n') = true
    · simp [List.dropWhile, hc, ih]
    · simp [List.dropWhile, eq_false_of_ne_true hc]

theorem trimNl_append {a : Msg} (b : Msg) (h : '\n' ∉ a) :
    trimNl (a ++ b) = a ++ trimNl b := by
  unfold trimNl
  rw [List.reverse_append, dropWhile_append_no_nl h, List.reverse_append,
    List.reverse_reverse]

theorem trimNl_no_nl {s : Msg} (h : '\n' ∉ s) : trimNl (s ++ ['\n']) = s := by
  rw [trimNl_append ['\n'] h, show trimNl ['\n'] = [] from rfl, List.append_nil]

theorem escNl_append (a b : Msg) : escNl (a ++ b) = escNl a ++ escNl b := by
  induction a with
  | nil => rfl
  | cons c t ih =>
    by_cases hc : c = '\n'
    · simp [escNl, hc, ih]
    · simp [escNl, hc, ih]

theorem escNl_no_nl {s : Msg} (h : '\n' ∉ s) : escNl s = s := by
  induction s with
  | nil => rfl
  | cons c t ih =>
    have hc : ¬c = '\n' := fun hc => h (hc ▸ List.mem_cons_self c t)
    simp [escNl, hc, ih (fun hm => h (List.mem_cons_of_mem c hm))]

theorem fmtLine_no_nl {cmd : Msg} {args : List Msg} (hc : '\n' ∉ cmd)
    (ha : ∀ a ∈ args, '\n' ∉ a) : fmtLine cmd args = joinSp (cmd :: args) := by
  have hj : '\n' ∉ joinSp (cmd :: args) := by
    intro hm
    rcases mem_joinSp hm with h1 | ⟨x, hx, hcx⟩
    · exact absurd h1 (by decide)
    · rcases List.mem_cons.mp hx with h2 | h2
      · exact hc (h2 ▸ hcx)
      · exact ha x h2 hcx
  unfold fmtLine
  rw [trimNl_no_nl hj, escNl_no_nl hj]

theorem digitChar_mem (n : Nat) : digitChar n ∈ ("0123456789?".toList) := by
  unfold digitChar
  split <;> decide

theorem natCharsAux_chars : ∀ (fuel n : Nat), ∀ c ∈ natCharsAux fuel n,
    c ∈ ("0123456789?".toList) := by
  intro fuel
  induction fuel with
  | zero => intro n c hc; simp [natCharsAux] at hc
  | succ f ih =>
    intro n c hc
    unfold natCharsAux at hc
    split at hc
    · rw [List.mem_singleton.mp hc]; exact digitChar_mem n
    · rcases List.mem_append.mp hc with h1 | h1
      · exact ih _ c h1
      · rw [List.mem_singleton.mp h1]; exact digitChar_mem (n % 10)

theorem natChars_no_nl (n : Nat) : '\n' ∉ natChars n := by
  intro hm
  have := natCharsAux_chars (n + 1) n '\n' hm
  exact absurd this (by decide)

theorem headToken_no_sp {s : Msg} (h : ' ' ∉ s) : headToken s = s := by
  unfold headToken
  rw [List.takeWhile_eq_self_iff]
  intro x hx
  simp only [ne_eq, decide_eq_true_eq]
  exact fun he => h (he ▸ hx)

theorem headToken_append_sp {a : Msg} (h : ' ' ∉ a) (x : Msg) :
    headToken (a ++ ' ' :: x) = a := by
  induction a with
  | nil => simp [headToken, List.takeWhile_cons]
  | cons c t ih =>
    have hc : ¬c = ' ' := fun hc => h (hc ▸ List.mem_cons_self c t)
    have ht := ih (fun hm => h (List.mem_cons_of_mem c hm))
    simp only [headToken, List.cons_append, List.takeWhile_cons] at ht ⊢
    simp [hc] at ht ⊢
    exact ht

theorem isPfx_self_append : ∀ (u v : Msg), u.isPrefixOf (u ++ v) = true := by
  intro u v
  induction u with
  | nil => cases v <;> rfl
  | cons c t ih => simp [List.isPrefixOf, ih]

theorem drop_len_append : ∀ (u v : Msg), (u ++ v).drop u.length = v := by
  intro u v
  induction u with
  | nil => rfl
  | cons c t ih =>
    simp only [List.cons_append, List.length_cons, List.drop_succ_cons]
    exact ih

/-- The first token of a formatted line whose command operand is ERROR is
the token ERROR itself, whatever the arguments are. -/
theorem headToken_fmtLine_err (args : List Msg) :
    headToken (fmtLine errChars args) = errChars := by
  cases args with
  | nil => decide
  | cons a t =>
    have hj : joinSp (errChars :: a :: t) = (errChars ++ [' ']) ++ joinSp (a :: t) := by
      show errChars ++ ' ' :: joinSp (a :: t) = _
      simp [List.append_assoc]
    have hnl : '\n' ∉ errChars ++ [' '] := by decide
    unfold fmtLine
    rw [hj, List.append_assoc, trimNl_append _ hnl, escNl_append, escNl_no_nl hnl,
      List.append_assoc errChars [' '], List.singleton_append]
    exact headToken_append_sp (by decide) _

/-- Formatting a line with command J, the rendered job number and the
original command and arguments equals the job prefix glued onto the
original formatted line. -/
theorem fmtLine_job (n : Nat) (cmd : Msg) (args : List Msg) :
    fmtLine ("J".toList) (natChars n :: cmd :: args) = jobPfx n ++ fmtLine cmd args := by
  have hA : '\n' ∉ jobPfx n := by
    intro hm
    unfold jobPfx at hm
    rcases List.mem_append.mp hm with h1 | h1
    · rcases List.mem_append.mp h1 with h2 | h2
      · exact absurd h2 (by decide)
      · exact natChars_no_nl n h2
    · exact absurd h1 (by decide)
  have hj : joinSp ("J".toList :: natChars n :: cmd :: args) =
      jobPfx n ++ joinSp (cmd :: args) := by
    show "J".toList ++ ' ' :: (natChars n ++ ' ' :: joinSp (cmd :: args)) = _
    unfold jobPfx
    simp [List.append_assoc]
  unfold fmtLine
  rw [hj, List.append_assoc, trimNl_append _ hA, escNl_append, escNl_no_nl hA]

/-- C2 counterexample: the line TRANSFER STORE has one fragment after the
command token while the TRANSFER handler declares three arguments; the
bounded split yields the one-element list with no empty-string padding, the
Response3 indexing finds no second element, and the dispatcher panics
instead of invoking the handler with empty strings. -/
theorem c2_counterexample :
    goSplitN ' ' 3 ("STORE".toList) = [("STORE".toList)] ∧
    invoke3 (goSplitN ' ' 3 ("STORE".toList)) = none ∧
    invoke3 (goSplitN ' ' 3 ("STORE".toList)) ≠
      some (("STORE".toList : Msg), ([] : Msg), ([] : Msg)) ∧
    procLine demoUser ("TRANSFER STORE".toList) [] = .error idxPanic := by
  exact ⟨by decide, by decide, by decide, rfl⟩

/-- C4 counterexample: with the argument list holding a b and c, the field
a b contains a space in a non-final position, and decoding the encoded line
with bound three regroups the fragments. -/
theorem c4_counterexample :
    decodeLine 3 (fmtLine ("CMD".toList) ["a b".toList, "c".toList]) =
      (("CMD".toList : Msg), ["a".toList, "b c".toList]) ∧
    decodeLine 3 (fmtLine ("CMD".toList) ["a b".toList, "c".toList]) ≠
      (("CMD".toList : Msg), ["a b".toList, "c".toList]) := by
  exact ⟨by decide, by decide⟩

/-- C4 amended: the framing round-trip decode of encode with bound one more
than the argument count recovers the command and arguments exactly, for
every command token free of spaces and newlines and every argument list
whose fields are newline-free and whose non-final fields are space-free
(the final argument may contain spaces, which the bounded split keeps). -/
theorem c4_roundtrip_amended :
    ∀ (cmd : Msg) (args : List Msg),
      '\n' ∉ cmd → ' ' ∉ cmd → (∀ a ∈ args, '\n' ∉ a) →
      (∀ a ∈ args.dropLast, ' ' ∉ a) →
      decodeLine (args.length + 1) (fmtLine cmd args) = (cmd, args) := by
  intro cmd args hnl hsp hanl hasp
  rw [fmtLine_no_nl hnl hanl]
  cases args with
  | nil =>
    have h2 : goSplitN ' ' 2 (joinSp [cmd]) = [cmd] := goSplitN_no_sp hsp 0
    simp only [decodeLine]
    rw [h2]
    rfl
  | cons a t =>
    have hj : joinSp (cmd :: a :: t) = cmd ++ ' ' :: joinSp (a :: t) := rfl
    have h2 : goSplitN ' ' 2 (cmd ++ ' ' :: joinSp (a :: t)) = [cmd, joinSp (a :: t)] := by
      simp only [goSplitN, splitFirst_append _ hsp]
    have h3 : (a :: t).length + 1 - 1 = (a :: t).length := by omega
    simp only [decodeLine]
    rw [hj, h2]
    simp only [List.headD, List.get?, Option.getD, h3]
    rw [goSplitN_joinSp (a :: t) (by simp) hasp]

theorem c4_witness :
    decodeLine 3 (fmtLine ("CMD".toList) ["a".toList, "b c".toList]) =
      (("CMD".toList : Msg), ["a".toList, "b c".toList]) :=
  c4_roundtrip_amended _ _ (by decide) (by decide) (by decide) (by decide)

/-- C6: the job prefix bijection. For a positive job number and a send
whose formatted line does not start with the ERROR token, the emitted line
is the J-number prefix glued verbatim onto the formatted line; a send whose
command operand is ERROR is emitted without any prefix regardless of the
job number; and receiving a prefixed line yields exactly the unprefixed
line back. -/
theorem c6_job_prefix_bijection :
    (∀ (n : Nat) (cmd : Msg) (args : List Msg), 0 < n →
      headToken (fmtLine cmd args) ≠ errChars →
      jobSend n cmd args = jobPfx n ++ fmtLine cmd args) ∧
    (∀ (n : Nat) (args : List Msg), jobSend n errChars args = fmtLine errChars args) ∧
    (∀ (n : Nat) (L : Msg), 0 < n → jobRecv n (jobPfx n ++ L) = some L) := by
  refine ⟨?_, ?_, ?_⟩
  · intro n cmd args hn hht
    have hcmd : cmd ≠ errChars := fun he => hht (he ▸ headToken_fmtLine_err args)
    unfold jobSend
    rw [if_pos ⟨hcmd, Nat.pos_iff_ne_zero.mp hn⟩]
    exact fmtLine_job n cmd args
  · intro n args
    unfold jobSend
    rw [if_neg (by simp)]
  · intro n L hn
    have hne : ¬(jobPfx n ++ L = [] ∨ n = 0) := by
      intro h
      rcases h with h | h
      · have hl := congrArg List.length h
        simp [jobPfx, List.length_append] at hl
      · omega
    have h1 : (jobPfx n).isPrefixOf (jobPfx n ++ L) = true := isPfx_self_append _ _
    have h2 : (jobPfx n ++ L).drop (jobPfx n).length = L := drop_len_append _ _
    have h3 : jobPfx n ++ L ≠ L := by
      intro heq
      have hl := congrArg List.length heq
      simp [jobPfx, List.length_append] at hl
      omega
    unfold jobRecv
    rw [if_neg hne]
    simp only [h1, if_true, h2]
    rw [if_neg h3]

theorem c6_witness :
    jobSend 2 ("X".toList) ["y".toList] =
      jobPfx 2 ++ fmtLine ("X".toList) ["y".toList] ∧
    jobRecv 2 (jobPfx 2 ++ "PREPARE".toList) = some ("PREPARE".toList) :=
  ⟨c6_job_prefix_bijection.1 2 _ _ (by decide) (by decide),
    c6_job_prefix_bijection.2.2 2 _ (by decide)⟩

/-- C1: the single-entry branch of checkURL tests the Filename field where
the claim, matching the doc comment of HasCheckURL in the same source file,
requires the URL field. A single entry with URL u, size five and empty
filename is answered with CHECKURL-CONTENTS, dropping the URL, instead of
the CHECKURL-MULTI reply the claim requires; a single entry with an empty
URL and filename f is answered with CHECKURL-MULTI instead of
CHECKURL-CONTENTS. -/
theorem c1_checkurl_filename_branch :
    checkURL (some (.ok [⟨"u".toList, 5, []⟩])) =
      [((cmdCheckURL ++ "-CONTENTS".toList : Msg), ["5".toList, []])] ∧
    checkURL (some (.ok [⟨[], 5, "f".toList⟩])) =
      [((cmdCheckURL ++ "-MULTI".toList : Msg), [[], "5".toList, "f".toList])] ∧
    [((cmdCheckURL ++ "-CONTENTS".toList : Msg), ["5".toList, []])] ≠
      ([((cmdCheckURL ++ "-MULTI".toList : Msg), ["u".toList, "5".toList, []])] : List Sent) ∧
    fmtLine (cmdCheckURL ++ "-CONTENTS".toList) ["5".toList, []] =
      ("CHECKURL-CONTENTS 5 ".toList) := by
  exact ⟨by decide, by decide, by decide, by decide⟩

/-- C3: a TRANSFER line whose direction token is neither STORE nor RETRIEVE
makes the transfer handler panic with the message built in the source; the
run ends at that panic with only the startup line written, and in
particular no line whose command token is ERROR is ever emitted, because
the deferred recover of RunWithStreams runs in a different goroutine than
the job handler that panicked. -/
theorem c3_handler_panic_no_error_line :
    runRemote demoUser [("TRANSFER FOO k f".toList)] =
      ([version1Send], some ("unknown transfer direction FOO".toList)) ∧
    ∀ s ∈ (runRemote demoUser [("TRANSFER FOO k f".toList)]).1, s.1 ≠ errChars := by
  exact ⟨rfl, by decide⟩

/-- C8 counterexample: when Present returns true together with a non-nil
error, the switch takes the presence case first and the reply is
CHECKPRESENT-SUCCESS, not the CHECKPRESENT-UNKNOWN reply the claim requires
for every non-nil error. -/
theorem c8_counterexample :
    present (true, some ("boom".toList)) ("k".toList) =
      [sendSuccess cmdCheckPresent ["k".toList]] ∧
    present (true, some ("boom".toList)) ("k".toList) ≠
      [sendUnknown cmdCheckPresent ["k".toList, "boom".toList]] := by
  exact ⟨by decide, by decide⟩

/-- C8 amended: a true presence result replies CHECKPRESENT-SUCCESS key
regardless of the error value; the CHECKPRESENT-UNKNOWN key errmsg reply
occurs exactly when the result is false with a non-nil error; false with a
nil error replies CHECKPRESENT-FAILURE key. The dispatcher routes the
CHECKPRESENT line with any key to this handler. -/
theorem c8_present_replies :
    ∀ (key e : Msg),
      present (true, some e) key = [sendSuccess cmdCheckPresent [key]] ∧
      present (true, none) key = [sendSuccess cmdCheckPresent [key]] ∧
      present (false, some e) key = [sendUnknown cmdCheckPresent [key, e]] ∧
      present (false, none) key = [sendFailure cmdCheckPresent [key]] ∧
      ∀ (u : RemoteUser) (st : Msg),
        procLine u (cmdCheckPresent ++ ' ' :: key) st =
          .ok (present (u.presentR key) key, st) := by
  intro key e
  exact ⟨rfl, rfl, rfl, rfl, fun u st => rfl⟩

/-- C9: the GENKEY reply shapes. On success with the size requested and a
successful stat of size s the key is X name -s s -- hash; without the size
the -s segment is absent; a user error or a stat failure replies
GENKEY-FAILURE with the message; and the backend name is the executable
basename with the literal prefix git-annex-backend-X removed, empty when
the basename does not start with that prefix. -/
theorem c9_genkey :
    ∀ (bname name e : Msg) (sz : Nat) (st2 : Except Msg Nat),
      genKeyResp bname (.ok (name, true)) (.ok sz) =
        [sendSuccess cmdGenKey
          ["X".toList ++ bname ++ "-s".toList ++ natChars sz ++ "--".toList ++ name]] ∧
      genKeyResp bname (.ok (name, false)) st2 =
        [sendSuccess cmdGenKey ["X".toList ++ bname ++ "--".toList ++ name]] ∧
      genKeyResp bname (.error e) st2 = [sendFailure cmdGenKey [e]] ∧
      genKeyResp bname (.ok (name, true)) (.error e) = [sendFailure cmdGenKey [e]] ∧
      (∀ rest : Msg, getBackendName (backendNamePfx ++ rest) = rest) ∧
      (backendNamePfx.isPrefixOf bname = false → getBackendName bname = []) := by
  intro bname name e sz st2
  refine ⟨rfl, rfl, rfl, rfl, ?_, ?_⟩
  · intro rest
    have htr : trimPfx backendNamePfx (backendNamePfx ++ rest) = rest := by
      unfold trimPfx
      rw [if_pos (isPfx_self_append _ _), drop_len_append]
    have hne : rest ≠ backendNamePfx ++ rest := by
      intro heq
      have hl := congrArg List.length heq
      simp [backendNamePfx, List.length_append] at hl
      omega
    simp only [getBackendName]
    rw [htr, if_neg hne]
  · intro hnp
    have htr : trimPfx backendNamePfx bname = bname := by
      unfold trimPfx
      rw [hnp]
      simp
    simp only [getBackendName]
    rw [htr, if_pos rfl]

theorem c9_witness :
    genKeyResp ("DEMO".toList) (.ok ("abcd".toList, true)) (.ok 12345) =
      [sendSuccess cmdGenKey [("XDEMO-s12345--abcd".toList)]] ∧
    getBackendName ("demo".toList) = [] := by
  constructor
  · have h := (c9_genkey ("DEMO".toList) ("abcd".toList) [] 12345 (.ok 0)).1
    rw [h]
    decide
  · exact (c9_genkey ("demo".toList) [] [] 0 (.ok 0)).2.2.2.2.2 (by decide)

/-- C10: verifyKeyContent performs no capability check and no key-shape
check. For a missing verification capability, or for a key without two
consecutive dashes, the handler panics (index past the bounded split when
the dashes are missing, a nil-interface method call when the capability is
missing) and no reply line is produced at all, in particular neither
VERIFYKEYCONTENT-FAILURE nor UNSUPPORTED-REQUEST. -/
theorem c10_verifykeycontent_panics :
    ∀ (cap : Option (Msg → Msg → Bool)) (key file : Msg),
      cap = none ∨ splitAfterDashDash key = none →
      isPanic (verifyKeyContent cap key file) = true ∧
      ∀ out, verifyKeyContent cap key file ≠ .ok out := by
  intro cap key file h
  cases hk : splitAfterDashDash key with
  | none =>
    unfold verifyKeyContent
    rw [hk]
    exact ⟨rfl, fun out h2 => Except.noConfusion h2⟩
  | some name =>
    rcases h with h | h
    · subst h
      unfold verifyKeyContent
      rw [hk]
      exact ⟨rfl, fun out h2 => Except.noConfusion h2⟩
    · rw [h] at hk
      cases hk

theorem c10_witness :
    isPanic (verifyKeyContent none ("SHA1key".toList) ("f".toList)) = true :=
  (c10_verifykeycontent_panics none _ _ (Or.inl rfl)).1

theorem goSplitN_two_cmd {c : Msg} (h : ' ' ∉ c) (X : Msg) :
    goSplitN ' ' 2 (c ++ ' ' :: X) = [c, X] := by
  simp only [goSplitN, splitFirst_append _ h]

theorem goSplitN_three {a b : Msg} (ha : ' ' ∉ a) (hb : ' ' ∉ b) (cc : Msg) :
    goSplitN ' ' 3 (a ++ ' ' :: (b ++ ' ' :: cc)) = [a, b, cc] := by
  simp only [goSplitN, splitFirst_append _ ha, splitFirst_append _ hb]

/-- procLine on a line built from a space-free command token, a space and a
remainder looks the command up and hands the remainder to the bounded
split of the found ArgCount. -/
theorem procLine_cmd_split {c : Msg} (hc : ' ' ∉ c) (u : RemoteUser) (X st : Msg) :
    procLine u (c ++ ' ' :: X) st =
      match findSpec u c with
      | some s => s.2 (goSplitN ' ' s.1 X) st
      | none =>
        if c = startupChars ∨ c = unsupportedChars then .ok ([], st)
        else .ok ([unsupportedSend], st) := by
  simp only [procLine]
  rw [goSplitN_two_cmd hc]
  exact rfl

/-- The dispatch of a TRANSFEREXPORT line: the remainder splits with bound
three and the Response3 indexing guards the handler call. -/
theorem procLine_transferExport (u : RemoteUser) (st X : Msg) :
    procLine u (cmdTransferExport ++ ' ' :: X) st =
      (match (goSplitN ' ' 3 X).get? 0, (goSplitN ' ' 3 X).get? 1,
          (goSplitN ' ' 3 X).get? 2 with
        | some d, some k, some f =>
          (transferExport u.exportCap st d k f).map (fun o => (o, st))
        | _, _, _ => .error idxPanic) := by
  rw [procLine_cmd_split (by decide)]
  exact rfl

/-- C5 counterexample: the dispatcher answers CHECKPRESENTEXPORT k, for a
remote with the export capability whose presence check succeeds, with the
single reply CHECKPRESENT-SUCCESS k, whose first token is none of the four
token shapes the claim allows for that inbound command. -/
theorem c5_counterexample :
    procLine expUser ("CHECKPRESENTEXPORT k".toList) [] =
      .ok ([(("CHECKPRESENT-SUCCESS".toList : Msg), ["k".toList])], []) ∧
    (("CHECKPRESENT-SUCCESS".toList : Msg)) ∉
      [("CHECKPRESENTEXPORT-SUCCESS".toList : Msg),
        "CHECKPRESENTEXPORT-FAILURE".toList,
        "CHECKPRESENTEXPORT-UNKNOWN".toList,
        "UNSUPPORTED-REQUEST".toList] := by
  exact ⟨rfl, by decide⟩

/-- C5 amended: CHECKPRESENTEXPORT, TRANSFEREXPORT with a valid direction
token, and REMOVEEXPORT each emit exactly one terminal reply line, but its
first token reuses the base command: CHECKPRESENT, TRANSFER and REMOVE
respectively, suffixed with SUCCESS, FAILURE or (for the presence check)
UNKNOWN, or it is the literal UNSUPPORTED-REQUEST when the export
capability is absent; and the dispatcher routes the three export command
lines to exactly these handlers. -/
theorem c5_export_reply_tokens :
    (∀ (cap : Option ExportImpl) (name key : Msg),
      (presentExport cap name key).length = 1 ∧
      ∀ s ∈ presentExport cap name key,
        s.1 = cmdCheckPresent ++ "-SUCCESS".toList ∨
        s.1 = cmdCheckPresent ++ "-FAILURE".toList ∨
        s.1 = cmdCheckPresent ++ "-UNKNOWN".toList ∨
        s.1 = unsupportedSend.1) ∧
    (∀ (cap : Option ExportImpl) (name dir key file : Msg),
      dir = dirStore ∨ dir = dirRetrieve →
      ∃ out, transferExport cap name dir key file = .ok out ∧ out.length = 1 ∧
        ∀ s ∈ out,
          s.1 = cmdTransfer ++ "-SUCCESS".toList ∨
          s.1 = cmdTransfer ++ "-FAILURE".toList ∨
          s.1 = unsupportedSend.1) ∧
    (∀ (cap : Option ExportImpl) (name key : Msg),
      (removeExport cap name key).length = 1 ∧
      ∀ s ∈ removeExport cap name key,
        s.1 = cmdRemove ++ "-SUCCESS".toList ∨
        s.1 = cmdRemove ++ "-FAILURE".toList ∨
        s.1 = unsupportedSend.1) ∧
    (∀ (u : RemoteUser) (st key : Msg),
      procLine u (cmdCheckPresentExport ++ ' ' :: key) st =
        .ok (presentExport u.exportCap st key, st) ∧
      procLine u (cmdRemoveExport ++ ' ' :: key) st =
        .ok (removeExport u.exportCap st key, st)) ∧
    (∀ (u : RemoteUser) (st key file : Msg), ' ' ∉ key →
      procLine u (cmdTransferExport ++ ' ' :: (dirStore ++ ' ' :: (key ++ ' ' :: file))) st =
        (transferExport u.exportCap st dirStore key file).map (fun o => (o, st))) := by
  refine ⟨?_, ?_, ?_, ?_, ?_⟩
  · intro cap name key
    cases cap with
    | none =>
      refine ⟨rfl, ?_⟩
      intro s hs
      rw [List.mem_singleton.mp hs]
      exact Or.inr (Or.inr (Or.inr rfl))
    | some h =>
      rcases hres : h.presentExportR name key with ⟨b, eo⟩
      cases b
      · cases eo with
        | none =>
          refine ⟨by simp [presentExport, hres], ?_⟩
          intro s hs
          simp [presentExport, hres] at hs
          rw [hs]
          exact Or.inr (Or.inl rfl)
        | some m =>
          refine ⟨by simp [presentExport, hres], ?_⟩
          intro s hs
          simp [presentExport, hres] at hs
          rw [hs]
          exact Or.inr (Or.inr (Or.inl rfl))
      · refine ⟨by simp [presentExport, hres], ?_⟩
        intro s hs
        simp [presentExport, hres] at hs
        rw [hs]
        exact Or.inl rfl
  · intro cap name dir key file hdir
    cases cap with
    | none =>
      refine ⟨[unsupportedSend], rfl, rfl, ?_⟩
      intro s hs
      rw [List.mem_singleton.mp hs]
      exact Or.inr (Or.inr rfl)
    | some h =>
      rcases hdir with h1 | h1
      · subst h1
        have hte : transferExport (some h) name dirStore key file =
            match h.storeExportR name key file with
            | some e => .ok [sendFailure cmdTransfer [dirStore, key, e]]
            | none => .ok [sendSuccess cmdTransfer [dirStore, key]] := rfl
        cases hres : h.storeExportR name key file with
        | none =>
          refine ⟨[sendSuccess cmdTransfer [dirStore, key]], ?_, rfl, ?_⟩
          · rw [hte, hres]
          · intro s hs
            rw [List.mem_singleton.mp hs]
            exact Or.inl rfl
        | some m =>
          refine ⟨[sendFailure cmdTransfer [dirStore, key, m]], ?_, rfl, ?_⟩
          · rw [hte, hres]
          · intro s hs
            rw [List.mem_singleton.mp hs]
            exact Or.inr (Or.inl rfl)
      · subst h1
        have hte : transferExport (some h) name dirRetrieve key file =
            match h.retrieveExportR name key file with
            | some e => .ok [sendFailure cmdTransfer [dirRetrieve, key, e]]
            | none => .ok [sendSuccess cmdTransfer [dirRetrieve, key]] := rfl
        cases hres : h.retrieveExportR name key file with
        | none =>
          refine ⟨[sendSuccess cmdTransfer [dirRetrieve, key]], ?_, rfl, ?_⟩
          · rw [hte, hres]
          · intro s hs
            rw [List.mem_singleton.mp hs]
            exact Or.inl rfl
        | some m =>
          refine ⟨[sendFailure cmdTransfer [dirRetrieve, key, m]], ?_, rfl, ?_⟩
          · rw [hte, hres]
          · intro s hs
            rw [List.mem_singleton.mp hs]
            exact Or.inr (Or.inl rfl)
  · intro cap name key
    cases cap with
    | none =>
      refine ⟨rfl, ?_⟩
      intro s hs
      rw [List.mem_singleton.mp hs]
      exact Or.inr (Or.inr rfl)
    | some h =>
      cases hres : h.removeExportR name key with
      | none =>
        refine ⟨by simp [removeExport, hres], ?_⟩
        intro s hs
        simp [removeExport, hres] at hs
        rw [hs]
        exact Or.inl rfl
      | some m =>
        refine ⟨by simp [removeExport, hres], ?_⟩
        intro s hs
        simp [removeExport, hres] at hs
        rw [hs]
        exact Or.inr (Or.inl rfl)
  · intro u st key
    exact ⟨rfl, rfl⟩
  · intro u st key file hk
    rw [procLine_transferExport, goSplitN_three (by decide) hk]
    exact rfl

theorem c5_witness :
    procLine demoUser
        (cmdTransferExport ++ ' ' :: (dirStore ++ ' ' :: ("k".toList ++ ' ' :: "f".toList))) [] =
      (transferExport demoUser.exportCap [] dirStore ("k".toList) ("f".toList)).map
        (fun o => (o, ([] : Msg))) ∧
    ∃ out, transferExport none ("n".toList) dirStore ("k".toList) ("f".toList) = .ok out ∧
      out.length = 1 ∧
      ∀ s ∈ out,
        s.1 = cmdTransfer ++ "-SUCCESS".toList ∨
        s.1 = cmdTransfer ++ "-FAILURE".toList ∨
        s.1 = unsupportedSend.1 :=
  ⟨c5_export_reply_tokens.2.2.2.2 demoUser [] _ _ (by decide),
    c5_export_reply_tokens.2.1 none _ _ _ _ (Or.inl rfl)⟩

/-- The bounded split of Go: the number of pieces is the bound or the number
of space-separated fragments, whichever is smaller; missing fragments are
never padded. -/
theorem goSplitN_length (n : Nat) : ∀ s : Msg,
    (goSplitN ' ' (n + 1) s).length = min (n + 1) (s.count ' ' + 1) := by
  induction n with
  | zero =>
    intro s
    show (goSplitN ' ' 1 s).length = min 1 (s.count ' ' + 1)
    rw [goSplitN_one]
    have h1 : min 1 (s.count ' ' + 1) = 1 := by omega
    rw [h1]
    rfl
  | succ m ih =>
    intro s
    show (goSplitN ' ' (m + 2) s).length = min (m + 1 + 1) (s.count ' ' + 1)
    cases hsf : splitFirst ' ' s with
    | none =>
      have hns : ' ' ∉ s := splitFirst_none hsf
      have hc : s.count ' ' = 0 := List.count_eq_zero.mpr hns
      simp only [goSplitN, hsf, List.length_singleton, hc]
      omega
    | some p =>
      obtain ⟨hs, hnm⟩ := splitFirst_some (s := s) (a := p.1) (t := p.2) (by rw [hsf])
      have hcount : s.count ' ' = p.2.count ' ' + 1 := by
        rw [hs, List.count_append]
        have h0 : p.1.count ' ' = 0 := List.count_eq_zero.mpr hnm
        rw [h0, List.count_cons_self]
        omega
      simp only [goSplitN, hsf, List.length_cons]
      rw [ih p.2, hcount]
      omega

/-- The Response3 indexing panics on every argument list shorter than
three, whatever its entries are. -/
theorem invoke3_short : ∀ args : List Msg, args.length < 3 → invoke3 args = none := by
  intro args h
  rcases args with _ | ⟨a, args⟩
  · rfl
  rcases args with _ | ⟨b, args⟩
  · rfl
  rcases args with _ | ⟨c, args⟩
  · rfl
  · simp only [List.length_cons] at h
    omega

/-- The dispatch of a TRANSFER line: the remainder splits with bound three
and the Response3 indexing guards the handler call. -/
theorem procLine_transfer (u : RemoteUser) (st X : Msg) :
    procLine u (cmdTransfer ++ ' ' :: X) st =
      (match (goSplitN ' ' 3 X).get? 0, (goSplitN ' ' 3 X).get? 1,
          (goSplitN ' ' 3 X).get? 2 with
        | some d, some k, some f =>
          (transfer u.storeR u.retrieveR d k f).map (fun o => (o, st))
        | _, _, _ => .error idxPanic) := by
  rw [procLine_cmd_split (by decide)]
  exact rfl

/-- C2 amended: a handler declaring one argument receives the entire
remainder as its single argument, the empty string when the body is absent
(and the EXTENSIONS body then splits into one empty-string element). For a
bound of two or more, a remainder with fewer fragments than the bound is
given a list with exactly one entry per fragment and no empty-string
padding: the split length is the minimum of the bound and the fragment
count, the Response3 indexing panics on every list shorter than three, in
particular on the split of any remainder with fewer than three fragments,
and a TRANSFER line carrying only a direction and a key makes the
dispatcher panic instead of invoking the handler with empty strings. -/
theorem c2_amended_split_semantics :
    (∀ s : Msg, goSplitN ' ' 1 s = [s]) ∧
    goSplitAll ' ' ([] : Msg) = [[]] ∧
    (∀ (s : Msg) (n : Nat), ' ' ∉ s → goSplitN ' ' (n + 2) s = [s]) ∧
    (∀ s : Msg, invoke3 [s] = none) ∧
    (∀ (n : Nat) (s : Msg),
      (goSplitN ' ' (n + 1) s).length = min (n + 1) (s.count ' ' + 1)) ∧
    (∀ args : List Msg, args.length < 3 → invoke3 args = none) ∧
    (∀ s : Msg, s.count ' ' + 1 < 3 → invoke3 (goSplitN ' ' 3 s) = none) ∧
    (∀ (u : RemoteUser) (st key : Msg), ' ' ∉ key →
      procLine u (cmdTransfer ++ ' ' :: (dirStore ++ ' ' :: key)) st =
        .error idxPanic) := by
  refine ⟨fun s => rfl, rfl, fun s n h => goSplitN_no_sp h n, fun s => rfl,
    goSplitN_length, invoke3_short, ?_, ?_⟩
  · intro s h
    apply invoke3_short
    have hl : (goSplitN ' ' 3 s).length = min 3 (s.count ' ' + 1) := goSplitN_length 2 s
    rw [hl]
    omega
  · intro u st key hk
    have hds : ' ' ∉ dirStore := by decide
    have h3 : goSplitN ' ' 3 (dirStore ++ ' ' :: key) = [dirStore, key] := by
      simp only [goSplitN, splitFirst_append _ hds, splitFirst_eq_none hk]
    rw [procLine_transfer, h3]
    exact rfl

theorem c2_witness :
    goSplitN ' ' 3 ("RETRIEVE".toList) = [("RETRIEVE".toList)] ∧
    invoke3 (goSplitN ' ' 3 ("STORE k".toList)) = none ∧
    procLine demoUser (cmdTransfer ++ ' ' :: (dirStore ++ ' ' :: "k".toList)) [] =
      .error idxPanic :=
  ⟨c2_amended_split_semantics.2.2.1 _ 1 (by decide),
    c2_amended_split_semantics.2.2.2.2.2.2.1 _ (by decide),
    c2_amended_split_semantics.2.2.2.2.2.2.2 demoUser [] _ (by decide)⟩

/- No handler except the startup one ever sends the VERSION 1 line: its
command component is always another token. One lemma per handler. -/

theorem fst_ne {c : Msg} (args : List Msg) (h : c ≠ version1Chars) :
    ((c, args) : Sent).1 ≠ version1Chars := h

theorem nv_initRemote (r : Option Msg) : ∀ s ∈ initRemote r, s.1 ≠ version1Chars := by
  cases r <;> (intro s hs; rw [List.mem_singleton.mp hs]; exact fst_ne _ (by decide))

theorem nv_prepare (r : Option Msg) : ∀ s ∈ prepare r, s.1 ≠ version1Chars := by
  cases r <;> (intro s hs; rw [List.mem_singleton.mp hs]; exact fst_ne _ (by decide))

theorem nv_transfer {sR rR : Msg → Msg → Option Msg} {d k f : Msg} {out : List Sent}
    (h : transfer sR rR d k f = .ok out) : ∀ s ∈ out, s.1 ≠ version1Chars := by
  unfold transfer at h
  repeat' split at h
  all_goals first
    | (replace h := Except.ok.inj h
       rw [← h]
       intro s hs
       rw [List.mem_singleton.mp hs]
       exact fst_ne _ (by decide))
    | exact Except.noConfusion h

theorem nv_present (res : Bool × Option Msg) (key : Msg) :
    ∀ s ∈ present res key, s.1 ≠ version1Chars := by
  rcases res with ⟨b, eo⟩
  cases b <;> cases eo <;>
    (intro s hs; rw [List.mem_singleton.mp hs]; exact fst_ne _ (by decide))

theorem nv_remove (r : Option Msg) (key : Msg) :
    ∀ s ∈ remove r key, s.1 ≠ version1Chars := by
  cases r <;> (intro s hs; rw [List.mem_singleton.mp hs]; exact fst_ne _ (by decide))

theorem nv_extensions (cap : Option (List Msg → List Msg)) (e : List Msg) :
    ∀ s ∈ extensions cap e, s.1 ≠ version1Chars := by
  cases cap <;> (intro s hs; rw [List.mem_singleton.mp hs]; exact fst_ne _ (by decide))

theorem nv_listConfigs (cap : Option (List (Msg × Msg))) :
    ∀ s ∈ listConfigs cap, s.1 ≠ version1Chars := by
  cases cap with
  | none => intro s hs; rw [List.mem_singleton.mp hs]; exact fst_ne _ (by decide)
  | some cs =>
    intro s hs
    rcases List.mem_append.mp hs with h1 | h1
    · rcases List.mem_map.mp h1 with ⟨c, _, hc⟩
      rw [← hc]
      exact fst_ne _ (by decide)
    · rw [List.mem_singleton.mp h1]
      exact fst_ne _ (by decide)

theorem nv_getCost (cap : Option Int) : ∀ s ∈ getCost cap, s.1 ≠ version1Chars := by
  cases cap <;> (intro s hs; rw [List.mem_singleton.mp hs]; exact fst_ne _ (by decide))

theorem nv_getAvailability (cap : Option Msg) :
    ∀ s ∈ getAvailability cap, s.1 ≠ version1Chars := by
  cases cap <;> (intro s hs; rw [List.mem_singleton.mp hs]; exact fst_ne _ (by decide))

theorem nv_claimURL (cap : Option (Msg → Bool)) (url : Msg) :
    ∀ s ∈ claimURL cap url, s.1 ≠ version1Chars := by
  intro s hs
  unfold claimURL at hs
  repeat' split at hs
  all_goals rw [List.mem_singleton.mp hs]
  all_goals exact fst_ne _ (by decide)

theorem nv_checkURL (cap : Option (Except Msg (List URLInfo))) :
    ∀ s ∈ checkURL cap, s.1 ≠ version1Chars := by
  intro s hs
  unfold checkURL at hs
  repeat' split at hs
  all_goals rw [List.mem_singleton.mp hs]
  all_goals exact fst_ne _ (by decide)

theorem nv_whereIs (cap : Option (Msg → Msg)) (key : Msg) :
    ∀ s ∈ whereIs cap key, s.1 ≠ version1Chars := by
  intro s hs
  unfold whereIs at hs
  repeat' split at hs
  all_goals rw [List.mem_singleton.mp hs]
  all_goals exact fst_ne _ (by decide)

theorem nv_getInfo (cap : Option (List (Msg × Msg))) :
    ∀ s ∈ getInfo cap, s.1 ≠ version1Chars := by
  cases cap with
  | none => intro s hs; rw [List.mem_singleton.mp hs]; exact fst_ne _ (by decide)
  | some fs =>
    intro s hs
    rcases List.mem_append.mp hs with h1 | h1
    · rcases List.mem_flatten.mp h1 with ⟨l, hl, hsl⟩
      rcases List.mem_map.mp hl with ⟨c, _, hc⟩
      rw [← hc] at hsl
      rcases List.mem_cons.mp hsl with h2 | h2
      · rw [h2]; exact fst_ne _ (by decide)
      · rw [List.mem_singleton.mp h2]; exact fst_ne _ (by decide)
    · rw [List.mem_singleton.mp h1]
      exact fst_ne _ (by decide)

theorem nv_exportSupported (cap : Option ExportImpl) :
    ∀ s ∈ exportSupported cap, s.1 ≠ version1Chars := by
  cases cap <;> (intro s hs; rw [List.mem_singleton.mp hs]; exact fst_ne _ (by decide))

theorem nv_presentExport (cap : Option ExportImpl) (name key : Msg) :
    ∀ s ∈ presentExport cap name key, s.1 ≠ version1Chars := by
  intro s hs
  unfold presentExport at hs
  repeat' split at hs
  all_goals rw [List.mem_singleton.mp hs]
  all_goals exact fst_ne _ (by decide)

theorem nv_transferExport {cap : Option ExportImpl} {name d k f : Msg} {out : List Sent}
    (h : transferExport cap name d k f = .ok out) : ∀ s ∈ out, s.1 ≠ version1Chars := by
  unfold transferExport at h
  repeat' split at h
  all_goals first
    | (replace h := Except.ok.inj h
       rw [← h]
       intro s hs
       rw [List.mem_singleton.mp hs]
       exact fst_ne _ (by decide))
    | exact Except.noConfusion h

theorem nv_removeExport (cap : Option ExportImpl) (name key : Msg) :
    ∀ s ∈ removeExport cap name key, s.1 ≠ version1Chars := by
  intro s hs
  unfold removeExport at hs
  repeat' split at hs
  all_goals rw [List.mem_singleton.mp hs]
  all_goals exact fst_ne _ (by decide)

theorem nv_removeExportDirectory (cap : Option (Msg → Option Msg)) (d : Msg) :
    ∀ s ∈ removeExportDirectory cap d, s.1 ≠ version1Chars := by
  intro s hs
  unfold removeExportDirectory at hs
  repeat' split at hs
  all_goals rw [List.mem_singleton.mp hs]
  all_goals exact fst_ne _ (by decide)

theorem nv_renameExport (cap : Option (Msg → Msg → Msg → Option Msg)) (n k nn : Msg) :
    ∀ s ∈ renameExport cap n k nn, s.1 ≠ version1Chars := by
  intro s hs
  unfold renameExport at hs
  repeat' split at hs
  all_goals rw [List.mem_singleton.mp hs]
  all_goals exact fst_ne _ (by decide)

/-- The command token extracted by procLine is the first space-delimited
token of the line. -/
theorem goSplitN_two_head (s : Msg) : (goSplitN ' ' 2 s).headD [] = headToken s := by
  cases hsf : splitFirst ' ' s with
  | none =>
    simp only [goSplitN, hsf, List.headD]
    exact (headToken_no_sp (splitFirst_none hsf)).symm
  | some p =>
    obtain ⟨hs, hnm⟩ := splitFirst_some (s := s) (a := p.1) (t := p.2) (by rw [hsf])
    simp only [goSplitN, hsf, List.headD]
    rw [hs, headToken_append_sp hnm]

theorem out_of_ok {A : List Sent} {st : Msg} {out : List Sent} {st2 : Msg}
    (h : (Except.ok (A, st) : Except Msg (List Sent × Msg)) = .ok (out, st2)) : out = A :=
  (congrArg Prod.fst (Except.ok.inj h)).symm

set_option maxHeartbeats 1000000 in
/-- Every handler reachable through the command map for a command other
than the internal startup sentinel produces, on a non-panicking run, only
sends whose command component differs from VERSION 1. -/
theorem findSpec_nv (u : RemoteUser) (cmd : Msg) (hcs : cmd ≠ startupChars)
    (k : Nat) (hd : HandlerM) (hfs : findSpec u cmd = some (k, hd)) :
    ∀ (args : List Msg) (st : Msg) (out : List Sent) (st2 : Msg),
      hd args st = .ok (out, st2) → ∀ s ∈ out, s.1 ≠ version1Chars := by
  unfold findSpec at hfs
  by_cases h1 : cmd = startupChars
  · exact absurd h1 hcs
  rw [if_neg h1] at hfs
  by_cases h2 : cmd = unsupportedChars
  · rw [if_pos h2] at hfs
    rw [Option.some.injEq, Prod.mk.injEq] at hfs
    obtain ⟨hk, hhd⟩ := hfs
    subst hhd
    intro args st out st2 hok
    replace hok : (Except.ok ([unsupportedSend], st) : Except Msg (List Sent × Msg)) =
      .ok (out, st2) := hok
    rw [out_of_ok hok]
    intro s hs
    rw [List.mem_singleton.mp hs]
    exact fst_ne _ (by decide)
  rw [if_neg h2] at hfs
  by_cases h3 : cmd = cmdInitRemote
  · rw [if_pos h3] at hfs
    rw [Option.some.injEq, Prod.mk.injEq] at hfs
    obtain ⟨hk, hhd⟩ := hfs
    subst hhd
    intro args st out st2 hok
    replace hok : (Except.ok (initRemote u.initR, st) : Except Msg (List Sent × Msg)) =
      .ok (out, st2) := hok
    rw [out_of_ok hok]
    exact nv_initRemote u.initR
  rw [if_neg h3] at hfs
  by_cases h4 : cmd = cmdPrepare
  · rw [if_pos h4] at hfs
    rw [Option.some.injEq, Prod.mk.injEq] at hfs
    obtain ⟨hk, hhd⟩ := hfs
    subst hhd
    intro args st out st2 hok
    replace hok : (Except.ok (prepare u.prepareR, st) : Except Msg (List Sent × Msg)) =
      .ok (out, st2) := hok
    rw [out_of_ok hok]
    exact nv_prepare u.prepareR
  rw [if_neg h4] at hfs
  by_cases h5 : cmd = cmdTransfer
  · rw [if_pos h5] at hfs
    rw [Option.some.injEq, Prod.mk.injEq] at hfs
    obtain ⟨hk, hhd⟩ := hfs
    subst hhd
    intro args st out st2 hok
    beta_reduce at hok
    rcases hg0 : args.get? 0 with _ | d
    · rw [hg0] at hok; exact Except.noConfusion hok
    rcases hg1 : args.get? 1 with _ | kk
    · rw [hg0, hg1] at hok; exact Except.noConfusion hok
    rcases hg2 : args.get? 2 with _ | ff
    · rw [hg0, hg1, hg2] at hok; exact Except.noConfusion hok
    rw [hg0, hg1, hg2] at hok
    replace hok : (transfer u.storeR u.retrieveR d kk ff).map (fun o => (o, st)) =
      .ok (out, st2) := hok
    cases ht : transfer u.storeR u.retrieveR d kk ff with
    | error m => rw [ht] at hok; exact Except.noConfusion hok
    | ok o =>
      rw [ht] at hok
      replace hok : (Except.ok (o, st) : Except Msg (List Sent × Msg)) = .ok (out, st2) := hok
      rw [out_of_ok hok]
      exact nv_transfer ht
  rw [if_neg h5] at hfs
  by_cases h6 : cmd = cmdCheckPresent
  · rw [if_pos h6] at hfs
    rw [Option.some.injEq, Prod.mk.injEq] at hfs
    obtain ⟨hk, hhd⟩ := hfs
    subst hhd
    intro args st out st2 hok
    beta_reduce at hok
    rcases hg0 : args.get? 0 with _ | kk
    · rw [hg0] at hok; exact Except.noConfusion hok
    rw [hg0] at hok
    replace hok : (Except.ok (present (u.presentR kk) kk, st) : Except Msg (List Sent × Msg)) =
      .ok (out, st2) := hok
    rw [out_of_ok hok]
    exact nv_present _ kk
  rw [if_neg h6] at hfs
  by_cases h7 : cmd = cmdRemove
  · rw [if_pos h7] at hfs
    rw [Option.some.injEq, Prod.mk.injEq] at hfs
    obtain ⟨hk, hhd⟩ := hfs
    subst hhd
    intro args st out st2 hok
    beta_reduce at hok
    rcases hg0 : args.get? 0 with _ | kk
    · rw [hg0] at hok; exact Except.noConfusion hok
    rw [hg0] at hok
    replace hok : (Except.ok (remove (u.removeR kk) kk, st) : Except Msg (List Sent × Msg)) =
      .ok (out, st2) := hok
    rw [out_of_ok hok]
    exact nv_remove _ kk
  rw [if_neg h7] at hfs
  by_cases h8 : cmd = cmdExtensions
  · rw [if_pos h8] at hfs
    rw [Option.some.injEq, Prod.mk.injEq] at hfs
    obtain ⟨hk, hhd⟩ := hfs
    subst hhd
    intro args st out st2 hok
    beta_reduce at hok
    rcases hg0 : args.get? 0 with _ | s0
    · rw [hg0] at hok; exact Except.noConfusion hok
    rw [hg0] at hok
    replace hok : (Except.ok (extensions u.extensionsR (goSplitAll ' ' s0), st) : Except Msg (List Sent × Msg)) =
      .ok (out, st2) := hok
    rw [out_of_ok hok]
    exact nv_extensions _ _
  rw [if_neg h8] at hfs
  by_cases h9 : cmd = cmdListConfigs
  · rw [if_pos h9] at hfs
    rw [Option.some.injEq, Prod.mk.injEq] at hfs
    obtain ⟨hk, hhd⟩ := hfs
    subst hhd
    intro args st out st2 hok
    replace hok : (Except.ok (listConfigs u.listConfigsR, st) : Except Msg (List Sent × Msg)) =
      .ok (out, st2) := hok
    rw [out_of_ok hok]
    exact nv_listConfigs _
  rw [if_neg h9] at hfs
  by_cases h10 : cmd = cmdGetCost
  · rw [if_pos h10] at hfs
    rw [Option.some.injEq, Prod.mk.injEq] at hfs
    obtain ⟨hk, hhd⟩ := hfs
    subst hhd
    intro args st out st2 hok
    replace hok : (Except.ok (getCost u.getCostR, st) : Except Msg (List Sent × Msg)) =
      .ok (out, st2) := hok
    rw [out_of_ok hok]
    exact nv_getCost _
  rw [if_neg h10] at hfs
  by_cases h11 : cmd = cmdGetAvailability
  · rw [if_pos h11] at hfs
    rw [Option.some.injEq, Prod.mk.injEq] at hfs
    obtain ⟨hk, hhd⟩ := hfs
    subst hhd
    intro args st out st2 hok
    replace hok : (Except.ok (getAvailability u.getAvailabilityR, st) : Except Msg (List Sent × Msg)) =
      .ok (out, st2) := hok
    rw [out_of_ok hok]
    exact nv_getAvailability _
  rw [if_neg h11] at hfs
  by_cases h12 : cmd = cmdClaimURL
  · rw [if_pos h12] at hfs
    rw [Option.some.injEq, Prod.mk.injEq] at hfs
    obtain ⟨hk, hhd⟩ := hfs
    subst hhd
    intro args st out st2 hok
    beta_reduce at hok
    rcases hg0 : args.get? 0 with _ | url
    · rw [hg0] at hok; exact Except.noConfusion hok
    rw [hg0] at hok
    replace hok : (Except.ok (claimURL u.claimURLR url, st) : Except Msg (List Sent × Msg)) =
      .ok (out, st2) := hok
    rw [out_of_ok hok]
    exact nv_claimURL _ url
  rw [if_neg h12] at hfs
  by_cases h13 : cmd = cmdCheckURL
  · rw [if_pos h13] at hfs
    rw [Option.some.injEq, Prod.mk.injEq] at hfs
    obtain ⟨hk, hhd⟩ := hfs
    subst hhd
    intro args st out st2 hok
    beta_reduce at hok
    rcases hg0 : args.get? 0 with _ | url
    · rw [hg0] at hok; exact Except.noConfusion hok
    rw [hg0] at hok
    replace hok : (Except.ok (checkURL ((u.checkURLR).map (fun f => f url)), st) : Except Msg (List Sent × Msg)) =
      .ok (out, st2) := hok
    rw [out_of_ok hok]
    exact nv_checkURL _
  rw [if_neg h13] at hfs
  by_cases h14 : cmd = cmdWhereIs
  · rw [if_pos h14] at hfs
    rw [Option.some.injEq, Prod.mk.injEq] at hfs
    obtain ⟨hk, hhd⟩ := hfs
    subst hhd
    intro args st out st2 hok
    beta_reduce at hok
    rcases hg0 : args.get? 0 with _ | kk
    · rw [hg0] at hok; exact Except.noConfusion hok
    rw [hg0] at hok
    replace hok : (Except.ok (whereIs u.whereIsR kk, st) : Except Msg (List Sent × Msg)) =
      .ok (out, st2) := hok
    rw [out_of_ok hok]
    exact nv_whereIs _ kk
  rw [if_neg h14] at hfs
  by_cases h15 : cmd = cmdGetInfo
  · rw [if_pos h15] at hfs
    rw [Option.some.injEq, Prod.mk.injEq] at hfs
    obtain ⟨hk, hhd⟩ := hfs
    subst hhd
    intro args st out st2 hok
    replace hok : (Except.ok (getInfo u.getInfoR, st) : Except Msg (List Sent × Msg)) =
      .ok (out, st2) := hok
    rw [out_of_ok hok]
    exact nv_getInfo _
  rw [if_neg h15] at hfs
  by_cases h16 : cmd = cmdExportSupported
  · rw [if_pos h16] at hfs
    rw [Option.some.injEq, Prod.mk.injEq] at hfs
    obtain ⟨hk, hhd⟩ := hfs
    subst hhd
    intro args st out st2 hok
    replace hok : (Except.ok (exportSupported u.exportCap, st) : Except Msg (List Sent × Msg)) =
      .ok (out, st2) := hok
    rw [out_of_ok hok]
    exact nv_exportSupported _
  rw [if_neg h16] at hfs
  by_cases h17 : cmd = cmdExport
  · rw [if_pos h17] at hfs
    rw [Option.some.injEq, Prod.mk.injEq] at hfs
    obtain ⟨hk, hhd⟩ := hfs
    subst hhd
    intro args st out st2 hok
    beta_reduce at hok
    rcases hg0 : args.get? 0 with _ | nm
    · rw [hg0] at hok; exact Except.noConfusion hok
    rw [hg0] at hok
    replace hok : (Except.ok (([] : List Sent), nm) : Except Msg (List Sent × Msg)) =
      .ok (out, st2) := hok
    rw [out_of_ok hok]
    intro s hs
    exact absurd hs (List.not_mem_nil s)
  rw [if_neg h17] at hfs
  by_cases h18 : cmd = cmdCheckPresentExport
  · rw [if_pos h18] at hfs
    rw [Option.some.injEq, Prod.mk.injEq] at hfs
    obtain ⟨hk, hhd⟩ := hfs
    subst hhd
    intro args st out st2 hok
    beta_reduce at hok
    rcases hg0 : args.get? 0 with _ | kk
    · rw [hg0] at hok; exact Except.noConfusion hok
    rw [hg0] at hok
    replace hok : (Except.ok (presentExport u.exportCap st kk, st) : Except Msg (List Sent × Msg)) =
      .ok (out, st2) := hok
    rw [out_of_ok hok]
    exact nv_presentExport _ st kk
  rw [if_neg h18] at hfs
  by_cases h19 : cmd = cmdTransferExport
  · rw [if_pos h19] at hfs
    rw [Option.some.injEq, Prod.mk.injEq] at hfs
    obtain ⟨hk, hhd⟩ := hfs
    subst hhd
    intro args st out st2 hok
    beta_reduce at hok
    rcases hg0 : args.get? 0 with _ | d
    · rw [hg0] at hok; exact Except.noConfusion hok
    rcases hg1 : args.get? 1 with _ | kk
    · rw [hg0, hg1] at hok; exact Except.noConfusion hok
    rcases hg2 : args.get? 2 with _ | ff
    · rw [hg0, hg1, hg2] at hok; exact Except.noConfusion hok
    rw [hg0, hg1, hg2] at hok
    replace hok : (transferExport u.exportCap st d kk ff).map (fun o => (o, st)) =
      .ok (out, st2) := hok
    cases ht : transferExport u.exportCap st d kk ff with
    | error m => rw [ht] at hok; exact Except.noConfusion hok
    | ok o =>
      rw [ht] at hok
      replace hok : (Except.ok (o, st) : Except Msg (List Sent × Msg)) = .ok (out, st2) := hok
      rw [out_of_ok hok]
      exact nv_transferExport ht
  rw [if_neg h19] at hfs
  by_cases h20 : cmd = cmdRemoveExport
  · rw [if_pos h20] at hfs
    rw [Option.some.injEq, Prod.mk.injEq] at hfs
    obtain ⟨hk, hhd⟩ := hfs
    subst hhd
    intro args st out st2 hok
    beta_reduce at hok
    rcases hg0 : args.get? 0 with _ | kk
    · rw [hg0] at hok; exact Except.noConfusion hok
    rw [hg0] at hok
    replace hok : (Except.ok (removeExport u.exportCap st kk, st) : Except Msg (List Sent × Msg)) =
      .ok (out, st2) := hok
    rw [out_of_ok hok]
    exact nv_removeExport _ st kk
  rw [if_neg h20] at hfs
  by_cases h21 : cmd = cmdRemoveExportDirectory
  · rw [if_pos h21] at hfs
    rw [Option.some.injEq, Prod.mk.injEq] at hfs
    obtain ⟨hk, hhd⟩ := hfs
    subst hhd
    intro args st out st2 hok
    beta_reduce at hok
    rcases hg0 : args.get? 0 with _ | dd
    · rw [hg0] at hok; exact Except.noConfusion hok
    rw [hg0] at hok
    replace hok : (Except.ok (removeExportDirectory u.removeExportDirectoryR dd, st) : Except Msg (List Sent × Msg)) =
      .ok (out, st2) := hok
    rw [out_of_ok hok]
    exact nv_removeExportDirectory _ dd
  rw [if_neg h21] at hfs
  by_cases h22 : cmd = cmdRenameExport
  · rw [if_pos h22] at hfs
    rw [Option.some.injEq, Prod.mk.injEq] at hfs
    obtain ⟨hk, hhd⟩ := hfs
    subst hhd
    intro args st out st2 hok
    beta_reduce at hok
    rcases hg0 : args.get? 0 with _ | n0
    · rw [hg0] at hok; exact Except.noConfusion hok
    rcases hg1 : args.get? 1 with _ | k1
    · rw [hg0, hg1] at hok; exact Except.noConfusion hok
    rcases hg2 : args.get? 2 with _ | n2
    · rw [hg0, hg1, hg2] at hok; exact Except.noConfusion hok
    rw [hg0, hg1, hg2] at hok
    replace hok : (Except.ok (renameExport u.renameExportR n0 k1 n2, st) : Except Msg (List Sent × Msg)) =
      .ok (out, st2) := hok
    rw [out_of_ok hok]
    exact nv_renameExport _ n0 k1 n2
  rw [if_neg h22] at hfs
  exact absurd hfs (by simp)

/-- A line whose first token is not the startup sentinel never makes the
dispatcher send VERSION 1. -/
theorem procLine_nv (u : RemoteUser) (l st : Msg) (hl : headToken l ≠ startupChars) :
    ∀ (out : List Sent) (st2 : Msg), procLine u l st = .ok (out, st2) →
      ∀ s ∈ out, s.1 ≠ version1Chars := by
  intro out st2 hok
  simp only [procLine] at hok
  have hcs : (goSplitN ' ' 2 l).headD [] ≠ startupChars := by
    rw [goSplitN_two_head]
    exact hl
  cases hfs : findSpec u ((goSplitN ' ' 2 l).headD []) with
  | none =>
    rw [hfs] at hok
    split_ifs at hok
    · replace hok : (Except.ok (([] : List Sent), st) : Except Msg (List Sent × Msg)) =
        .ok (out, st2) := hok
      rw [out_of_ok hok]
      intro s hs
      exact absurd hs (List.not_mem_nil s)
    · replace hok : (Except.ok ([unsupportedSend], st) : Except Msg (List Sent × Msg)) =
        .ok (out, st2) := hok
      rw [out_of_ok hok]
      intro s hs
      rw [List.mem_singleton.mp hs]
      exact fst_ne _ (by decide)
  | some sp =>
    rw [hfs] at hok
    exact findSpec_nv u _ hcs sp.1 sp.2 (by rw [hfs]) _ st out st2 hok

theorem countVer_append (a b : List Sent) :
    countVer (a ++ b) = countVer a + countVer b := by
  induction a with
  | nil => simp [countVer]
  | cons s t ih => simp [countVer, ih]; omega

theorem countVer_eq_zero {l : List Sent} (h : ∀ s ∈ l, s.1 ≠ version1Chars) :
    countVer l = 0 := by
  induction l with
  | nil => rfl
  | cons s t ih =>
    have hs : ¬s = version1Send := fun he => h s (List.mem_cons_self s t) (by rw [he]; rfl)
    simp only [countVer, if_neg hs, ih (fun x hx => h x (List.mem_cons_of_mem s hx))]

theorem mem_of_takeWhile {α : Type} {p : α → Bool} :
    ∀ {xs : List α} {x : α}, x ∈ xs.takeWhile p → x ∈ xs := by
  intro xs
  induction xs with
  | nil => intro x h; simp [List.takeWhile] at h
  | cons a t ih =>
    intro x h
    rw [List.takeWhile_cons] at h
    by_cases hp : p a = true
    · rw [if_pos hp] at h
      rcases List.mem_cons.mp h with h1 | h1
      · exact h1 ▸ List.mem_cons_self a t
      · exact List.mem_cons_of_mem a (ih h1)
    · rw [if_neg hp] at h
      exact absurd h (List.not_mem_nil x)

/-- A sequence of lines none of which starts with the startup sentinel
produces a trace without the VERSION 1 send. -/
theorem runLines_nv (u : RemoteUser) :
    ∀ (ls : List Msg) (st : Msg), (∀ l ∈ ls, headToken l ≠ startupChars) →
      ∀ s ∈ (runLines u ls st).1, s.1 ≠ version1Chars := by
  intro ls
  induction ls with
  | nil => intro st _ s hs; exact absurd hs (List.not_mem_nil s)
  | cons l t ih =>
    intro st h s hs
    rw [show runLines u (l :: t) st =
        (match procLine u l st with
         | .error p => ([], some p)
         | .ok (out, st2) =>
           (out ++ (runLines u t st2).1, (runLines u t st2).2)) from rfl] at hs
    cases hok : procLine u l st with
    | error p => rw [hok] at hs; exact absurd hs (List.not_mem_nil s)
    | ok r =>
      rw [hok] at hs
      rcases r with ⟨out, st2⟩
      replace hs : s ∈ out ++ (runLines u t st2).1 := hs
      rcases List.mem_append.mp hs with h1 | h1
      · exact procLine_nv u l st (h l (List.mem_cons_self l t)) out st2 hok s h1
      · exact ih st2 (fun x hx => h x (List.mem_cons_of_mem l hx)) s h1

/-- C7 counterexample: an input stream holding the literal internal startup
sentinel line makes the engine write VERSION 1 a second time, so the line is
not written exactly once for every possible input stream. -/
theorem c7_counterexample :
    countVer (runRemote demoUser [("__internal_startup__".toList)]).1 = 2 ∧
    (2 : Nat) ≠ 1 := by
  exact ⟨rfl, by decide⟩

/-- C7 amended: for every remote implementation and every input stream that
is free of async job prefixes (no line starts with the token J, so the
whole conversation is job zero) and whose lines never start with the
internal startup sentinel token, the VERSION 1 send is the first element of
the output trace, triggered by the synthetic startup command dispatched
before the first input line is consumed, and it occurs exactly once in the
run. -/
theorem c7_version_once (u : RemoteUser) (inputs : List Msg)
    (hJ : ∀ l ∈ inputs, headToken l ≠ ("J".toList : Msg))
    (hS : ∀ l ∈ inputs, headToken l ≠ startupChars) :
    (runRemote u inputs).1.head? = some version1Send ∧
    countVer (runRemote u inputs).1 = 1 := by
  have hnv := runLines_nv u (inputs.takeWhile (fun l => !l.isEmpty)) []
    (fun l hl => hS l (mem_of_takeWhile hl))
  have hrun : runRemote u inputs =
      (version1Send :: (runLines u (inputs.takeWhile (fun l => !l.isEmpty)) []).1,
        (runLines u (inputs.takeWhile (fun l => !l.isEmpty)) []).2) := rfl
  rw [hrun]
  constructor
  · rfl
  · have hz := countVer_eq_zero hnv
    simp [countVer, hz]

theorem c7_witness :
    (runRemote demoUser [("INITREMOTE".toList)]).1.head? = some version1Send ∧
    countVer (runRemote demoUser [("INITREMOTE".toList)]).1 = 1 :=
  c7_version_once demoUser _ (by decide) (by decide)

end AnnexExt
